import Mathlib

/-!
Verification development for the writeback table extension.

The definitions below are shallow embeddings of the JavaScript source:
`utils/keyDimensionsUtils.js`, `utils/saveService.js`, `utils/readService.js`,
`components/writebackTable.jsx` and `utils/userPresenceService.js`.
Machine arithmetic is modelled with explicit two's-complement truncation on
`Int`; JS objects keyed by strings are modelled as association lists in
insertion order; strings are Lean `String`s (JS UTF-16 code units coincide with
Unicode scalar values on the ASCII inputs exercised here).
-/

namespace Writeback

/-! ### JS-style primitives -/

/-- `ToInt32` of ECMAScript: wrap an integer into `[-2^31, 2^31)`. -/
def toInt32 (n : Int) : Int :=
  (n + 2147483648) % 4294967296 - 2147483648

/-- Decimal digits of a natural number, most significant first, with explicit
fuel so that the definition is structural and evaluates in the kernel. -/
def decDigitsAux : Nat → Nat → List Char
  | 0, _ => []
  | fuel + 1, n =>
    if n < 10 then [Nat.digitChar n]
    else decDigitsAux fuel (n / 10) ++ [Nat.digitChar (n % 10)]

/-- JS `Number.prototype.toString` / template interpolation of a nonnegative
integer: its decimal representation. -/
def natToString (n : Nat) : String :=
  ⟨decDigitsAux (n + 1) n⟩

/-- Numeric value of a most-significant-first digit string. -/
def decValue (l : List Char) : Nat :=
  l.foldl (fun a c => a * 10 + (c.toNat - 48)) 0

theorem digitChar_toNat {n : Nat} (h : n < 10) : (Nat.digitChar n).toNat = n + 48 := by
  interval_cases n <;> rfl

theorem decValue_append (l : List Char) (c : Char) :
    decValue (l ++ [c]) = decValue l * 10 + (c.toNat - 48) := by
  simp [decValue]

theorem decValue_decDigitsAux : ∀ fuel n, n < fuel → decValue (decDigitsAux fuel n) = n := by
  intro fuel
  induction fuel with
  | zero => intro n h; omega
  | succ f ih =>
    intro n h
    by_cases h10 : n < 10
    · simp only [decDigitsAux, if_pos h10, decValue, List.foldl_cons, List.foldl_nil]
      rw [digitChar_toNat h10]; omega
    · have hdiv : n / 10 < f := by omega
      simp only [decDigitsAux, if_neg h10]
      rw [decValue_append, ih _ hdiv, digitChar_toNat (Nat.mod_lt _ (by omega))]
      omega

theorem natToString_injective : Function.Injective natToString := by
  intro m n h
  have hd : decDigitsAux (m + 1) m = decDigitsAux (n + 1) n := congrArg String.data h
  have := decValue_decDigitsAux (m + 1) m (by omega)
  rw [hd, decValue_decDigitsAux (n + 1) n (by omega)] at this
  omega

theorem string_data_append (a b : String) : (a ++ b).data = a.data ++ b.data := rfl

/-- JS truthiness of an optional string: `undefined`/`null` and `""` are falsy. -/
def jsOrStr (v : Option String) (dflt : String) : String :=
  match v with
  | some s => if s = "" then dflt else s
  | none => dflt

/-- Strip `sep` from the front of `l` when it is a prefix, else `none`. -/
def dropPrefixQ : List Char → List Char → Option (List Char)
  | [], l => some l
  | _ :: _, [] => none
  | s :: ss, c :: cs => if c = s then dropPrefixQ ss cs else none

theorem dropPrefixQ_length_le :
    ∀ (sep l rem : List Char), dropPrefixQ sep l = some rem → rem.length ≤ l.length := by
  intro sep
  induction sep with
  | nil => intro l rem h; cases h; omega
  | cons s ss ih =>
    intro l rem h
    cases l with
    | nil => cases h
    | cons c cs =>
      by_cases hc : c = s
      · simp only [dropPrefixQ, if_pos hc] at h
        have := ih cs rem h
        simp only [List.length_cons]
        omega
      · simp only [dropPrefixQ, if_neg hc] at h
        exact Option.noConfusion h

/-- Leftmost, non-overlapping split at occurrences of `sep`, fuel-structured so
that the kernel can evaluate it. -/
def splitCharsAux (sep : List Char) : Nat → List Char → List (List Char)
  | _, [] => [[]]
  | 0, l => [l]
  | fuel + 1, c :: rest =>
    match dropPrefixQ sep (c :: rest) with
    | some rem => [] :: splitCharsAux sep fuel rem
    | none =>
      match splitCharsAux sep fuel rest with
      | [] => [[c]]
      | h :: t => (c :: h) :: t

/-- JS `s.split(sep)` for a non-empty string separator (the only uses in the
source split on `"|"`, `"-"` or `"::"`). -/
def jsSplit (s sep : String) : List String :=
  if sep.data.isEmpty then [s]
  else (splitCharsAux sep.data s.data.length s.data).map fun l => ⟨l⟩

/-- JS `s.trim()`. -/
def jsTrim (s : String) : String :=
  ⟨((s.data.dropWhile Char.isWhitespace).reverse.dropWhile Char.isWhitespace).reverse⟩

/-- JS `a.includes(b)` for a non-empty search string, via the split. -/
def strContains (s sub : String) : Bool :=
  2 ≤ (jsSplit s sub).length

/-! ### Data model

A hypercube cell carries an optional `qText` (`none` models an absent
property); a row is the list of its cells, an absent list entry models an
out-of-range index. -/

structure Cell where
  qText : Option String
deriving DecidableEq, Repr

/-- A cell whose `qText` is present. -/
def cellOf (t : String) : Cell := ⟨some t⟩

abbrev Row := List Cell

/-- JS truthiness of `cell.qText`: present and non-empty. -/
def qTextTruthy (c : Cell) : Option String :=
  match c.qText with
  | some t => if t = "" then none else some t
  | none => none

/-- One entry of the `keyDimensions` array of the property panel. -/
structure KeyDim where
  dimensionName : String
  isKeyDimension : Bool
  keyOrder : Option Nat
deriving DecidableEq, Repr

/-- The `validation` sub-object of a writeback column (absent properties are
`none`; numeric bounds are modelled exactly over `ℚ`). -/
structure ValidationRules where
  minLength : Option Nat := none
  maxLength : Option Nat := none
  minValue : Option Rat := none
  maxValue : Option Rat := none
deriving DecidableEq, Repr

structure WritebackColumnConfig where
  columnName : String
  columnType : String := "text"
  defaultValue : String := ""
  readOnly : Bool := false
  required : Bool := false
  validation : Option ValidationRules := none
deriving DecidableEq, Repr

/-- The slice of the extension layout that the embedded functions read:
key-dimension configuration, hypercube dimension/measure titles and data rows
(`qDataPages[0].qMatrix`), and the writeback configuration.  `writebackColumns
= none` models an absent `columns` property (`[]` is truthy in JS). -/
structure Layout where
  keyDimensions : List KeyDim := []
  keyGenerationStrategy : Option String := none
  keySeparator : Option String := none
  dimensions : List String := []
  measures : List String := []
  dataRows : List Row := []
  writebackEnabled : Bool := false
  writebackColumns : Option (List WritebackColumnConfig) := none
  confirmBeforeSave : Bool := false

/-! ### keyDimensionsUtils.js -/

/-- `getKeyDimensionsConfig` (strategy and separator with JS `||` defaults). -/
structure KeyConfig where
  keyGenerationStrategy : String
  keySeparator : String
deriving DecidableEq, Repr

def getKeyDimensionsConfig (layout : Layout) : KeyConfig :=
  { keyGenerationStrategy := jsOrStr layout.keyGenerationStrategy "concatenate"
    keySeparator := jsOrStr layout.keySeparator "|" }

/-- `a.keyOrder || 1` of the sort comparator (`0` is falsy in JS). -/
def keyOrderVal (k : KeyDim) : Nat :=
  match k.keyOrder with
  | some n => if n = 0 then 1 else n
  | none => 1

/-- Stable insertion into a list sorted by `keyOrderVal` (new element goes
after existing elements with `≤` order, as JS's stable `Array.sort`). -/
def stableInsert (x : KeyDim) : List KeyDim → List KeyDim
  | [] => [x]
  | y :: ys => if keyOrderVal y ≤ keyOrderVal x then y :: stableInsert x ys else x :: y :: ys

def stableSortByOrder (l : List KeyDim) : List KeyDim :=
  l.foldl (fun acc x => stableInsert x acc) []

/-- `getActiveKeyDimensions`: key dimensions present in the data columns,
sorted ascending by `keyOrder || 1` (stably). -/
def getActiveKeyDimensions (layout : Layout) (columns : List String) : List KeyDim :=
  stableSortByOrder
    (layout.keyDimensions.filter fun kd => kd.isKeyDimension && columns.contains kd.dimensionName)

/-- `generateHashKey`: `h = (h << 5) - h + c` with 32-bit truncation at each
step (`hash = hash & hash`), over the values joined by `"|"`; the final value's
absolute value stringified in decimal.  The shift itself truncates, hence the
inner `toInt32`. -/
def hashStep (h : Int) (c : Char) : Int :=
  toInt32 (toInt32 (h * 32) - h + c.toNat)

def generateHashKey (values : List String) : String :=
  let str := String.intercalate "|" values
  if str.data.isEmpty then "0"
  else natToString (str.data.foldl hashStep 0).natAbs

/-- JSON string escaping as in `JSON.stringify` (the characters it escapes on
the inputs in scope: quote, backslash and ASCII control characters). -/
def jsonEscapeChar (c : Char) : List Char :=
  if c = '"' then ['\\', '"']
  else if c = '\\' then ['\\', '\\']
  else if c = '\n' then ['\\', 'n']
  else if c = '\t' then ['\\', 't']
  else if c = '\r' then ['\\', 'r']
  else [c]

def jsonQuote (s : String) : String :=
  ⟨'"' :: s.data.foldr (fun c acc => jsonEscapeChar c ++ acc) ['"']⟩

/-- `JSON.stringify` of an array of strings. -/
def jsonStringifyArr (values : List String) : String :=
  "[" ++ String.intercalate "," (values.map jsonQuote) ++ "]"

/-- `generateKeyFromValues`: dispatch on the configured strategy. -/
def generateKeyFromValues (values : List String) (config : KeyConfig) : String :=
  if config.keyGenerationStrategy = "hash" then generateHashKey values
  else if config.keyGenerationStrategy = "composite" then jsonStringifyArr values
  else String.intercalate config.keySeparator values

/-- `generateFallbackKey`: first three cells with truthy `qText`, joined by `|`. -/
def generateFallbackKey (row : Row) : String :=
  String.intercalate "|" ((row.take 3).filterMap qTextTruthy)

/-- `generateRowKey`: key values of the active key dimensions
(`row[columnIndex].qText || ""` when the cell exists), else the fallback key. -/
def generateRowKey (row : Row) (layout : Layout) (columns : List String) : String :=
  let config := getKeyDimensionsConfig layout
  let active := getActiveKeyDimensions layout columns
  if active.isEmpty then generateFallbackKey row
  else
    let keyValues := active.filterMap fun kd =>
      match columns.indexOf? kd.dimensionName with
      | some i => (row.get? i).map (fun c => c.qText.getD "")
      | none => none
    generateKeyFromValues keyValues config

/-- `createEnhancedRowId`: the row key and the `row-<index>` fallback, always
combined with a literal `|` (template string `` `${key}|${fallback}` ``). -/
def createEnhancedRowId (row : Row) (index : Nat) (layout : Layout) (columns : List String) :
    String :=
  generateRowKey row layout columns ++ "|" ++ ("row-" ++ natToString index)

/-! ### userPresenceService.js -/

/-- The per-session user record published through the shared channel. -/
structure PresenceUser where
  name : String
  status : String
  editingRow : Option String
  editingFields : List String
deriving DecidableEq, Repr

/-- JS truthiness of `user.editingRow` (`null` and `""` are falsy). -/
def editingRowTruthy (u : PresenceUser) : Option String :=
  match u.editingRow with
  | some r => if r = "" then none else some r
  | none => none

/-- A session counted by `detectConflicts`: status `"editing"` with a truthy
`editingRow` equal to `k`. -/
def isEditingRow (k : String) (u : PresenceUser) : Bool :=
  u.status = "editing" && editingRowTruthy u = some k

/-- `editingMap.get(row).push(user)` / `editingMap.set(row, [user])`:
append to the group of key `k`, creating it at the end on first use
(JS `Map` preserves insertion order). -/
def addToGroup (gs : List (String × List PresenceUser)) (k : String) (u : PresenceUser) :
    List (String × List PresenceUser) :=
  match gs with
  | [] => [(k, [u])]
  | (k', us) :: rest =>
    if k' = k then (k', us ++ [u]) :: rest else (k', us) :: addToGroup rest k u

/-- One iteration of the `editingMap` grouping loop of `detectConflicts`:
only sessions with status `"editing"` and a truthy `editingRow` are grouped. -/
def presenceStep (gs : List (String × List PresenceUser)) (u : PresenceUser) :
    List (String × List PresenceUser) :=
  if u.status = "editing" then
    match editingRowTruthy u with
    | some k => addToGroup gs k u
    | none => gs
  else gs

/-- The `editingMap` grouping loop of `detectConflicts`. -/
def buildEditingMap (users : List PresenceUser) : List (String × List PresenceUser) :=
  users.foldl presenceStep []

/-- First-occurrence deduplication, as `[...new Set(xs)]`. -/
def dedupFirst (l : List String) : List String :=
  (l.foldl (fun acc x => if acc.contains x then acc else acc ++ [x]) [])

structure Conflict where
  rowId : String
  users : List String
  fields : List String
  severity : String
deriving DecidableEq, Repr

/-- The conflict record built for a group of editors of one row: user names,
and the union (first-occurrence deduplicated) of their `editingFields`. -/
def mkConflict (k : String) (g : List PresenceUser) : Conflict :=
  { rowId := k
    users := g.map (·.name)
    fields := dedupFirst (g.foldr (fun u acc => u.editingFields ++ acc) [])
    severity := "warning" }

/-- A group yields a conflict exactly when it has more than one member. -/
def mkConflictQ (g : String × List PresenceUser) : Option Conflict :=
  if 1 < g.2.length then some (mkConflict g.1 g.2) else none

/-- `detectConflicts`: groups of `editing` sessions by row, a conflict per
group with more than one member, fields deduplicated across the group. -/
def detectConflicts (users : List PresenceUser) : List Conflict :=
  (buildEditingMap users).filterMap mkConflictQ

/-- `updateEditingStatus(rowId, fields)`: set the local session's edit target;
status is `"editing"` exactly when `rowId` is truthy. -/
def updateEditingStatus (u : PresenceUser) (rowId : Option String) (fields : List String) :
    PresenceUser :=
  { u with
    editingRow := rowId
    editingFields := fields
    status := match rowId with
      | some r => if r = "" then "viewing" else "editing"
      | none => "viewing" }

/-- The DOM facts `detectEditingActivity` reads: whether an input element is
focused, the trimmed text of the *first* cell of the focused row, the header
text above the focused cell, and whether a keystroke happened within 2s. -/
structure FocusContext where
  inputFocused : Bool
  rowFirstCellText : Option String
  headerText : Option String
  keystrokeWithin2s : Bool
deriving DecidableEq, Repr

/-- Header cleanup `fieldName.replace(/[✏️🔑*]/g, "").trim()`. -/
def cleanFieldName (s : String) : String :=
  jsTrim (⟨s.data.filter fun c => !(c = '✏' || c = '️' || c = '🔑' || c = '*')⟩ : String)

/-- `detectEditingActivity`: status, editing row and fields derived from the
focused element; the editing row is the first cell's display text. -/
def detectEditingActivity (ctx : FocusContext) : String × Option String × List String :=
  if ctx.inputFocused then
    ((if ctx.keystrokeWithin2s then "typing" else "editing"),
     ctx.rowFirstCellText,
     match ctx.headerText with
     | some f => [cleanFieldName f]
     | none => [])
  else ("viewing", none, [])

/-! ### saveService.js — field-name canonicalisation -/

/-- Collapse runs of `'_'` to a single `'_'` (`.replace(/_+/g, "_")`). -/
def collapseUnderscores : List Char → List Char
  | [] => []
  | '_' :: '_' :: rest => collapseUnderscores ('_' :: rest)
  | c :: rest => c :: collapseUnderscores rest

/-- `convertToDbColumnName`: lowercase, non-alphanumerics to `'_'`, collapse
runs, strip leading/trailing underscores. -/
def convertToDbColumnName (fieldName : String) : String :=
  let lowered := fieldName.data.map Char.toLower
  let replaced := lowered.map fun c => if c.isLower || c.isDigit then c else '_'
  let collapsed := collapseUnderscores replaced
  ⟨((collapsed.dropWhile (· = '_')).reverse.dropWhile (· = '_')).reverse⟩

/-- `\w` of the variation regexes. -/
def isWordChar (c : Char) : Bool := c.isAlphanum || c = '_'

/-- `.replace(/\b\w/g, l => l.toUpperCase())`: uppercase each word-initial
character. -/
def titleCaseAux : Bool → List Char → List Char
  | _, [] => []
  | prevWord, c :: rest =>
    (if isWordChar c && !prevWord then c.toUpper else c) :: titleCaseAux (isWordChar c) rest

def titleCaseOf (s : String) : String := ⟨titleCaseAux false s.data⟩

/-- `s.charAt(0).toUpperCase() + s.slice(1)`. -/
def upperFirst (s : String) : String :=
  match s.data with
  | [] => ""
  | c :: rest => ⟨c.toUpper :: rest⟩

/-- `.replace(/_([a-z])/g, (m, l) => l.toUpperCase())`. -/
def camelAux : List Char → List Char
  | [] => []
  | '_' :: c :: rest => if c.isLower then c.toUpper :: camelAux rest else '_' :: camelAux (c :: rest)
  | c :: rest => c :: camelAux rest

def camelCaseOf (s : String) : String := ⟨camelAux s.data⟩

def toUpperStr (s : String) : String := ⟨s.data.map Char.toUpper⟩
def toLowerStr (s : String) : String := ⟨s.data.map Char.toLower⟩

/-- `generateUIFieldVariations`: the eleven pushed variations, deduplicated
first-occurrence as `[...new Set(variations)]`. -/
def generateUIFieldVariations (dbFieldName : String) : List String :=
  let spaced := ⟨dbFieldName.data.map fun c => if c = '_' then ' ' else c⟩
  let title := titleCaseOf spaced
  let sentence := upperFirst spaced
  let camel := camelCaseOf dbFieldName
  let pascal := upperFirst camel
  dedupFirst
    [dbFieldName, spaced, title, sentence, camel, pascal,
     toUpperStr dbFieldName, toUpperStr spaced, toUpperStr title,
     toLowerStr dbFieldName, toLowerStr spaced]

/-- `fuzzyMatchFields`: compare after lowercasing and stripping everything
outside `[a-z0-9]`. -/
def fuzzyNormalize (s : String) : String :=
  ⟨(s.data.map Char.toLower).filter fun c => c.isLower || c.isDigit⟩

def fuzzyMatchFields (uiFieldName dbFieldName : String) : Bool :=
  fuzzyNormalize uiFieldName = fuzzyNormalize dbFieldName

/-! ### writebackTable.jsx — validation -/

inductive ValidationResult where
  | valid : ValidationResult
  | invalid : String → ValidationResult
deriving DecidableEq, Repr

def ValidationResult.isValid : ValidationResult → Bool
  | .valid => true
  | .invalid _ => false

def intToString (i : Int) : String :=
  if i < 0 then "-" ++ natToString i.natAbs else natToString i.natAbs

/-- Decimal rendering of the rationals appearing in validation messages
(display-only; exact on integers, the inputs in scope). -/
def ratToString (q : Rat) : String :=
  if q.den = 1 then intToString q.num
  else intToString q.num ++ "/" ++ natToString q.den

/-- `parseFloat`: leading whitespace skipped, optional sign, decimal digits
with optional fraction, longest prefix; `none` models `NaN`.  (Exponent forms
are not exercised by any input in scope; decimal values are exact in `ℚ`.) -/
def jsParseFloat (s : String) : Option Rat :=
  let l := s.data.dropWhile Char.isWhitespace
  let (sign, l) : Int × List Char :=
    match l with
    | '-' :: rest => (-1, rest)
    | '+' :: rest => (1, rest)
    | _ => (1, l)
  let intPart := l.takeWhile Char.isDigit
  let rest := l.dropWhile Char.isDigit
  let fracPart :=
    match rest with
    | '.' :: r => r.takeWhile Char.isDigit
    | _ => []
  if intPart.isEmpty && fracPart.isEmpty then none
  else
    some (sign * ((decValue intPart : Rat) + (decValue fracPart : Rat) / (10 : Rat) ^ fracPart.length))

def checkMaxLength (value : String) (rules : ValidationRules) : ValidationResult :=
  match rules.maxLength with
  | some m => if m ≠ 0 ∧ m < value.length then .invalid ("Maximum length is " ++ natToString m)
              else .valid
  | none => .valid

def checkMaxValue (q : Rat) (rules : ValidationRules) : ValidationResult :=
  match rules.maxValue with
  | some m => if m < q then .invalid ("Maximum value is " ++ ratToString m) else .valid
  | none => .valid

/-- `validateField` of `writebackTable.jsx`.  Note the guard: a column whose
config carries no `validation` object is never checked, not even for
`required`.  Length bounds use JS truthiness (`0` disables them); numeric
bounds use presence (`!== undefined`). -/
def validateField (value : String) (config : WritebackColumnConfig) : ValidationResult :=
  match config.validation with
  | none => .valid
  | some rules =>
    if config.required ∧ (value = "" ∨ jsTrim value = "") then .invalid "This field is required"
    else if config.columnType = "text" ∨ config.columnType = "textarea" then
      match rules.minLength with
      | some m =>
        if m ≠ 0 ∧ value.length < m then .invalid ("Minimum length is " ++ natToString m)
        else checkMaxLength value rules
      | none => checkMaxLength value rules
    else if config.columnType = "number" then
      match jsParseFloat value with
      | none => .invalid "Please enter a valid number"
      | some q =>
        match rules.minValue with
        | some m => if q < m then .invalid ("Minimum value is " ++ ratToString m)
                    else checkMaxValue q rules
        | none => checkMaxValue q rules
    else .valid

/-! ### saveService.js — grouping and row resolution -/

/-- `extractPrimaryKeyFromEditKey`: composite keys split at `"::"`, simple
keys at the *last* `"-"`; a key with neither yields `null`. -/
def extractPrimaryKeyFromEditKey (editKey : String) : Option String :=
  if strContains editKey "::" then some ((jsSplit editKey "::").headD "")
  else if strContains editKey "-" then
    some (String.intercalate "-" ((jsSplit editKey "-").dropLast))
  else none

/-- `extractFieldNameFromEditKey`. -/
def extractFieldNameFromEditKey (editKey : String) : String :=
  if strContains editKey "::" then (jsSplit editKey "::").getLastD ""
  else if strContains editKey "-" then (jsSplit editKey "-").getLastD ""
  else editKey

/-- Upsert into an association list (JS object property assignment: overwrite
in place, append new keys at the end). -/
def setField (fs : List (String × String)) (f v : String) : List (String × String) :=
  match fs with
  | [] => [(f, v)]
  | (f', v') :: rest => if f' = f then (f', v) :: rest else (f', v') :: setField rest f v

/-- `grouped[primaryKey][fieldName] = value` with group creation. -/
def upsertGroupField (gs : List (String × List (String × String))) (pk f v : String) :
    List (String × List (String × String)) :=
  match gs with
  | [] => [(pk, [(f, v)])]
  | (k, fs) :: rest =>
    if k = pk then (k, setField fs f v) :: rest else (k, fs) :: upsertGroupField rest pk f v

structure PKInfo where
  name : String
  dbColumn : String
  index : Nat
deriving DecidableEq, Repr

structure KDimCol where
  name : String
  dbColumn : String
  index : Nat
  ctype : String
deriving DecidableEq, Repr

structure ModelStructure where
  primaryKey : Option PKInfo
  keyDimensions : List KDimCol
  writebackFields : List String
  auditFields : List String
deriving DecidableEq, Repr

/-- `groupEditsByPrimaryKey`: empty when no primary key is configured; JS
object key order is first-insertion order on these non-index-like keys. -/
def groupEditsByPrimaryKey (editedData : List (String × String)) (ms : ModelStructure) :
    List (String × List (String × String)) :=
  match ms.primaryKey with
  | none => []
  | some _ =>
    editedData.foldl
      (fun gs kv =>
        match extractPrimaryKeyFromEditKey kv.1 with
        | some pk =>
          if pk = "" then gs else upsertGroupField gs pk (extractFieldNameFromEditKey kv.1) kv.2
        | none => gs)
      []

/-- The regex `/row-(\d+)/`: value of the digit run after the first occurrence
of `"row-"` that is followed by at least one digit. -/
def scanRowNum : List Char → Option Nat
  | [] => none
  | c :: rest =>
    match c, rest with
    | 'r', 'o' :: 'w' :: '-' :: rest2 =>
      let ds := rest2.takeWhile Char.isDigit
      if ds.isEmpty then scanRowNum rest else some (decValue ds)
    | _, _ => scanRowNum rest

/-- `row[i] && row[i].qText` as an `Option`: `row[index]?.qText`. -/
def qTextAt (row : Row) (index : Nat) : Option String :=
  (row.get? index).bind Cell.qText

/-- Method 1 of `findRowByPrimaryKey`: take `rows[N]` from the trailing
`row-<N>`, verified against the first key segment when that is possible,
returned unverified otherwise; mismatch or invalid index falls through. -/
def findRowMethod1 (baseRows : List Row) (keyParts : List String) (rowIndexPart : String) :
    Option Row :=
  match scanRowNum rowIndexPart.data with
  | none => none
  | some n =>
    match baseRows.get? n with
    | none => none
    | some row =>
      match row.head? with
      | some c =>
        match c.qText with
        | some t =>
          if t ≠ "" ∧ keyParts ≠ [] then
            if keyParts.headD "" = t then some row else none
          else some row
        | none => some row
      | none => some row

/-- Method 2: linear scan for the first row whose first cell's `qText` equals
the first key segment. -/
def findRowMethod2 (baseRows : List Row) (keyParts : List String) : Option Row :=
  match keyParts with
  | [] => none
  | k0 :: _ => baseRows.find? fun r => qTextAt r 0 = some k0

/-- Method 3: scan the configured primary-key column for the first key segment
(or the whole row key when there are no key segments). -/
def findRowMethod3 (baseRows : List Row) (keyParts : List String) (primaryKey : String)
    (ms : ModelStructure) : Option Row :=
  match ms.primaryKey with
  | none => none
  | some pk =>
    let searchValue := match keyParts with
      | k0 :: _ => k0
      | [] => primaryKey
    baseRows.find? fun r => qTextAt r pk.index = some searchValue

/-- `findRowByPrimaryKey` of the database save path. -/
def findRowByPrimaryKey (baseRows : List Row) (primaryKey : String) (ms : ModelStructure) :
    Option Row :=
  let parts := jsSplit primaryKey "|"
  let keyParts := parts.dropLast
  let rowIndexPart := parts.getLastD ""
  (findRowMethod1 baseRows keyParts rowIndexPart).orElse fun _ =>
    (findRowMethod2 baseRows keyParts).orElse fun _ =>
      findRowMethod3 baseRows keyParts primaryKey ms

/-- `findMatchingRow` of the CSV save path: positional lookup verified against
up to the first three key segments, then a scan accepting any row on which at
least two of those segments match. -/
def findMatchingRow (rowId : String) (baseRows : List Row) : Option (Row × Nat) :=
  let parts := jsSplit rowId "|"
  let keyParts := parts.dropLast
  let rowIndexPart := parts.getLastD ""
  let direct : Option (Row × Nat) :=
    match scanRowNum rowIndexPart.data with
    | none => none
    | some n =>
      match baseRows.get? n with
      | none => none
      | some row =>
        let mismatch := (List.range (min keyParts.length 3)).any fun i =>
          match row.get? i with
          | some c => !(c.qText == some (keyParts.getD i ""))
          | none => false
        if mismatch then none else some (row, n)
  direct.orElse fun _ =>
    ((baseRows.enum.find? fun p =>
        2 ≤ ((List.range (min keyParts.length 3)).filter fun j =>
          match p.2.get? j with
          | some c => c.qText == some (keyParts.getD j "")
          | none => false).length).map
      fun p => (p.2, p.1))

/-! ### saveService.js — record construction and save -/

/-- `getWritebackFieldsFromConfig`: configured column names canonicalised,
with the hardcoded fallback when writeback is disabled or `columns` absent. -/
def getWritebackFieldsFromConfig (layout : Layout) : List String :=
  match layout.writebackEnabled, layout.writebackColumns with
  | true, some cols => cols.map fun c => convertToDbColumnName c.columnName
  | _, _ => ["model_feedback", "comments"]

/-- `analyzeModelStructure`: the first dimension is the primary key; every
dimension (and no measure) is a key dimension. -/
def analyzeModelStructure (layout : Layout) : ModelStructure :=
  { primaryKey :=
      match layout.dimensions with
      | [] => none
      | d :: _ => some { name := d, dbColumn := convertToDbColumnName d, index := 0 }
    keyDimensions := layout.dimensions.enum.map fun p =>
      { name := p.2, dbColumn := convertToDbColumnName p.2, index := p.1, ctype := "dimension" }
    writebackFields := getWritebackFieldsFromConfig layout
    auditFields :=
      ["created_by", "modified_by", "created_at", "modified_at", "version", "session_id",
       "app_id"] }

/-- `extractValueFromRow` for the `"dimension"` type: `row[index].qText || null`.
(The `"measure"` branch parses `qNum`, which this cell model does not carry; it
is unreachable here because `analyzeModelStructure` types every key dimension
`"dimension"`.) -/
def extractValueFromRow (row : Row) (index : Nat) (ctype : String) : Option String :=
  if ctype = "measure" then none
  else
    match row.get? index with
    | some c => qTextTruthy c
    | none => none

/-- The edit-value resolution of `createDynamicDbRecord`: first variation
present in the edits wins (`break`), but an empty result (absent *or* staged
empty) falls through to fuzzy matching, where the *last* fuzzy match wins
(`forEach` keeps assigning). -/
def resolveEditValue (dbFieldName : String) (edits : List (String × String)) : String :=
  let fromVariation :=
    ((generateUIFieldVariations dbFieldName).findSome? fun ui => List.lookup ui edits).getD ""
  if fromVariation = "" then
    edits.foldl (fun acc kv => if fuzzyMatchFields kv.1 dbFieldName then kv.2 else acc) ""
  else fromVariation

/-- Audit context threaded through a save: acting user, ISO timestamp, ids and
the wall-clock version number. -/
structure SaveContext where
  user : String
  timestamp : String
  appId : String
  sessionId : String
  version : Nat
deriving DecidableEq, Repr

/-- One PostgreSQL record as built by `createDynamicDbRecord`. -/
structure DbRecord where
  keyValues : List (String × Option String)
  writebackValues : List (String × String)
  created_by : String
  modified_by : String
  created_at : String
  modified_at : String
  version : Nat
  session_id : String
  app_id : String
deriving DecidableEq, Repr

def createDynamicDbRecord (sourceRow : Row) (ms : ModelStructure)
    (edits : List (String × String)) (ctx : SaveContext) : DbRecord :=
  { keyValues := ms.keyDimensions.map fun d => (d.dbColumn, extractValueFromRow sourceRow d.index d.ctype)
    writebackValues := ms.writebackFields.map fun f => (f, resolveEditValue f edits)
    created_by := ctx.user
    modified_by := ctx.user
    created_at := ctx.timestamp
    modified_at := ctx.timestamp
    version := ctx.version
    session_id := ctx.sessionId
    app_id := ctx.appId }

/-- `convertToDbRecords`: one record per grouped row key whose source row
resolves; unresolvable row keys are skipped with a warning. -/
def convertToDbRecords (editedData : List (String × String)) (layout : Layout)
    (ctx : SaveContext) : List DbRecord :=
  let baseRows := layout.dataRows
  let ms := analyzeModelStructure layout
  let groups := groupEditsByPrimaryKey editedData ms
  groups.foldl
    (fun recs g =>
      match findRowByPrimaryKey baseRows g.1 ms with
      | none => recs
      | some row => recs ++ [createDynamicDbRecord row ms g.2 ctx])
    []

/-- The object `saveWritebackData` resolves with (absent properties `none`). -/
structure SaveResult where
  success : Bool
  message : String
  fileName : Option String := none
  timestamp : Option String := none
  changeCount : Option Nat := none
  savedBy : Option String := none
  rtype : Option String := none
deriving DecidableEq, Repr

deriving instance DecidableEq for Except

/-- `saveWritebackData` of the database save path.  `transport` models the
`sendToPostgreSQLAutomation` round trip: `.error` is a thrown transport
failure, re-thrown wrapped; with zero generated records the transport is never
invoked and a `success: false` result *resolves*. -/
def saveWritebackData (transport : Except String Unit) (ctx : SaveContext)
    (editedData : List (String × String)) (layout : Layout) : Except String SaveResult :=
  let dbRecords := convertToDbRecords editedData layout ctx
  if dbRecords.isEmpty then
    .ok { success := false, message := "No changes to save", rtype := some "warning" }
  else
    match transport with
    | .error e => .error ("Failed to save to database: " ++ e)
    | .ok _ =>
      .ok { success := true
            message := "Successfully saved " ++ natToString dbRecords.length ++
              " records to database"
            fileName := none
            timestamp := some ctx.timestamp
            changeCount := some dbRecords.length
            savedBy := some ctx.user
            rtype := some "success" }

/-! ### writebackTable.jsx — table state and `saveAllChanges` -/

/-- The `saveStatus` React state. -/
structure SaveStatusR where
  success : Bool
  message : String
  fileName : Option String := none
  changeCount : Option Nat := none
  timestamp : Option String := none
deriving DecidableEq, Repr

/-- The component state the save path touches: the edit buffer (`editedData`),
the dirty flag, and the last save status. -/
structure TableState where
  editedData : List (String × String)
  hasUnsavedChanges : Bool
  saveStatus : Option SaveStatusR := none

/-- Last-write-wins lookup in the writeback column `Map`
(`configuredColumns.forEach(c => map.set(c.columnName, c))`). -/
def mapGetLast (cols : List WritebackColumnConfig) (name : String) :
    Option WritebackColumnConfig :=
  cols.foldl (fun acc c => if c.columnName = name then some c else acc) none

/-- `key.split("-").pop()` of the validation loop. -/
def extractFieldFromKey (key : String) : String :=
  (jsSplit key "-").getLastD ""

/-- One iteration of the validation loop of `saveAllChanges`. -/
def collectStep (cols : List WritebackColumnConfig) (errs : List String)
    (kv : String × String) : List String :=
  match mapGetLast cols (extractFieldFromKey kv.1) with
  | some config =>
    match validateField kv.2 config with
    | .invalid msg => errs ++ [extractFieldFromKey kv.1 ++ ": " ++ msg]
    | .valid => errs
  | none => errs

/-- The validation loop of `saveAllChanges`: one `"field: message"` entry per
edit whose field resolves in the column map and fails validation. -/
def collectValidationErrors (editedData : List (String × String))
    (cols : List WritebackColumnConfig) : List String :=
  editedData.foldl (collectStep cols) []

/-- `saveAllChanges` as a state transition.  `userConfirms` models the
`window.confirm` answer; the second component is the `saveWritebackData`
outcome when the call was reached (`none`: no save attempted).  On a resolved
result the buffer is cleared and a success status stored *regardless of the
result's own `success` flag*; on a thrown error the buffer is untouched. -/
def saveAllChanges (layout : Layout) (ctx : SaveContext) (transport : Except String Unit)
    (userConfirms : Bool) (st : TableState) : TableState × Option (Except String SaveResult) :=
  if ¬ st.hasUnsavedChanges ∨ st.editedData.isEmpty then (st, none)
  else
    let cols := (layout.writebackColumns).getD []
    let validationErrors := collectValidationErrors st.editedData cols
    if ¬ validationErrors.isEmpty then
      ({ st with saveStatus := some {
            success := false
            message := "Validation errors: " ++ String.intercalate "; " validationErrors
            timestamp := some ctx.timestamp } }, none)
    else if layout.confirmBeforeSave ∧ ¬ userConfirms then (st, none)
    else
      match saveWritebackData transport ctx st.editedData layout with
      | .ok result =>
        ({ editedData := []
           hasUnsavedChanges := false
           saveStatus := some {
             success := true
             message := result.message
             fileName := result.fileName
             changeCount := result.changeCount
             timestamp := result.timestamp } }, some (.ok result))
      | .error e =>
        ({ st with saveStatus := some {
            success := false, message := e, timestamp := some ctx.timestamp } },
         some (.error e))

/-- `updateEditedData`: stage the value under `` `${rowId}-${field}` `` and
notify the presence coordinator with only the *first* `|`-segment of the row
id (`rowId.split('|')[0]`) as the editing target. -/
def updateEditedData (st : TableState) (rowId field value : String) :
    TableState × (String × List String) :=
  ({ st with
      editedData := setField st.editedData (rowId ++ "-" ++ field) value
      hasUnsavedChanges := true },
   ((jsSplit rowId "|").headD "", [field]))

/-- `getEditedValue`: `editedData[key] || config?.defaultValue || ""`. -/
def getEditedValue (st : TableState) (cols : List WritebackColumnConfig)
    (rowId field : String) : String :=
  let v := (List.lookup (rowId ++ "-" ++ field) st.editedData).getD ""
  if v ≠ "" then v
  else
    match mapGetLast cols field with
    | some config => config.defaultValue
    | none => ""

/-- The `loadExistingWritebackData` effect: when the loaded map is non-empty
it *replaces* the whole edit buffer (`setEditedData(existingData)`); no merge
with locally staged values takes place. -/
def applyLoadedWritebackData (loaded : List (String × String)) (st : TableState) : TableState :=
  if loaded.isEmpty then st else { st with editedData := loaded }

/-! ### readService.js — baseline reconstruction -/

structure WritebackEntry where
  value : String
  timestamp : String
  auditId : String
  field : String
deriving DecidableEq, Repr

/-- `mergeWritebackWithTable`: rebuild each row's positional id (first three
truthy cell texts plus `row-<index>`) and keep the server values whose keys
match a current row and column; the local edit buffer is never consulted. -/
def mergeWritebackWithTable (writebackData : List (String × WritebackEntry))
    (rows : List Row) (allColumns : List String) : List (String × String) :=
  rows.enum.foldl
    (fun acc p =>
      let rowId := String.intercalate "|"
        (((p.2.take 3).filterMap qTextTruthy) ++ ["row-" ++ natToString p.1])
      allColumns.foldl
        (fun acc2 col =>
          let key := rowId ++ "-" ++ col
          match List.lookup key writebackData with
          | some e => setField acc2 key e.value
          | none => acc2)
        acc)
    []

/-! ## Theorems -/

/-! ### C6 — hash strategy -/

theorem toInt32_toInt32_add (a b : Int) : toInt32 (toInt32 a + b) = toInt32 (a + b) := by
  unfold toInt32
  omega

theorem hashStep_eq_rolling (h : Int) (c : Char) :
    hashStep h c = toInt32 (h * 31 + c.toNat) := by
  have key : toInt32 (h * 32) - h + (c.toNat : Int) = toInt32 (h * 32) + ((c.toNat : Int) - h) := by
    ring
  have := toInt32_toInt32_add (h * 32) ((c.toNat : Int) - h)
  unfold hashStep
  rw [key, this]
  congr 1
  ring

theorem foldl_hashStep_eq (l : List Char) :
    ∀ h : Int, l.foldl hashStep h = l.foldl (fun h c => toInt32 (h * 31 + c.toNat)) h := by
  induction l with
  | nil => intro h; rfl
  | cons c cs ih =>
    intro h
    simp only [List.foldl_cons, hashStep_eq_rolling, ih]

/-- The claim's description of the hash strategy: the decimal string of the
absolute value of the 32-bit signed integer obtained by the polynomial rolling
hash `h := toInt32 (h * 31 + charCode)` over the values joined by `"|"`. -/
def hashKeySpec (values : List String) : String :=
  natToString
    (((String.intercalate "|" values).data.foldl (fun h c => toInt32 (h * 31 + c.toNat)) 0).natAbs)

/-- C6: `generateHashKey` computes exactly the claimed 32-bit polynomial
rolling hash (`h*31 + charCode`, truncated at each step, absolute value,
decimal), and on `["A","B"]` with separator `"|"` the `hash` strategy always
yields the digit string `"66375"`. -/
theorem C6_hash_strategy :
    (∀ values : List String, generateHashKey values = hashKeySpec values) ∧
    generateKeyFromValues ["A", "B"] { keyGenerationStrategy := "hash", keySeparator := "|" } =
      "66375" := by
  constructor
  · intro values
    unfold generateHashKey hashKeySpec
    by_cases h : (String.intercalate "|" values).data.isEmpty
    · have hnil : (String.intercalate "|" values).data = [] := by
        simpa [List.isEmpty_iff] using h
      simp only [h, if_true, hnil, List.foldl_nil]
      rfl
    · simp [h, foldl_hashStep_eq]
  · decide

/-! ### C5 — `row-<index>` suffix joining -/

/-- Concrete configuration refuting C5: strategy `concatenate` with separator
`";"`. -/
def exLayoutC5 : Layout :=
  { keyDimensions := [⟨"D1", true, some 1⟩, ⟨"D2", true, some 2⟩]
    keyGenerationStrategy := some "concatenate"
    keySeparator := some ";" }

/-- C5 counterexample: with separator `";"` and strategy `concatenate`, the
key part is `"A;B"` but the `row-0` discriminator is joined with `"|"`, not
with the concatenation separator as the claim states. -/
theorem C5_counterexample :
    createEnhancedRowId [cellOf "A", cellOf "B"] 0 exLayoutC5 ["D1", "D2"] = "A;B|row-0" ∧
    generateRowKey [cellOf "A", cellOf "B"] exLayoutC5 ["D1", "D2"] = "A;B" ∧
    createEnhancedRowId [cellOf "A", cellOf "B"] 0 exLayoutC5 ["D1", "D2"] ≠
      generateRowKey [cellOf "A", cellOf "B"] exLayoutC5 ["D1", "D2"] ++ ";" ++ "row-0" := by
  refine ⟨by decide, by decide, by decide⟩

/-- C5 amended: for every row, index and configuration the generated RowKey
ends with the positional discriminator `row-<index>`, and that final segment
is always joined to the key part with the literal separator `"|"`, whatever
the strategy and configured separator are. -/
theorem C5_amended_rowid_suffix (row : Row) (index : Nat) (layout : Layout)
    (columns : List String) :
    ∃ p, createEnhancedRowId row index layout columns =
      p ++ ("|" ++ ("row-" ++ natToString index)) ∧
      p = generateRowKey row layout columns := by
  refine ⟨generateRowKey row layout columns, ?_, rfl⟩
  unfold createEnhancedRowId
  rw [String.append_assoc]

/-! ### C7 — uniqueness under key collision -/

theorem decDigitsAux_inj {m n : Nat}
    (h : decDigitsAux (m + 1) m = decDigitsAux (n + 1) n) : m = n := by
  have h1 := decValue_decDigitsAux (m + 1) m (by omega)
  have h2 := decValue_decDigitsAux (n + 1) n (by omega)
  rw [h] at h1
  omega

/-- C7: two rows with identical key parts but different indices always get
different RowKeys, thanks to the `row-<index>` discriminator. -/
theorem C7_unique_under_collision (row1 row2 : Row) (i j : Nat) (layout : Layout)
    (columns : List String)
    (hkey : generateRowKey row1 layout columns = generateRowKey row2 layout columns)
    (hij : i ≠ j) :
    createEnhancedRowId row1 i layout columns ≠ createEnhancedRowId row2 j layout columns := by
  unfold createEnhancedRowId
  rw [hkey]
  intro h
  apply hij
  have hd := congrArg String.data h
  simp only [string_data_append, List.append_assoc] at hd
  have hdi : (natToString i).data = (natToString j).data :=
    List.append_cancel_left (List.append_cancel_left (List.append_cancel_left hd))
  exact decDigitsAux_inj hdi

/-- C7 witness: concrete instantiation at indices `0` and `1` of the same row. -/
theorem C7_unique_under_collision_witness :
    createEnhancedRowId [cellOf "A"] 0 exLayoutC5 ["D1"] ≠
      createEnhancedRowId [cellOf "A"] 1 exLayoutC5 ["D1"] :=
  C7_unique_under_collision [cellOf "A"] [cellOf "A"] 0 1 exLayoutC5 ["D1"] rfl (by decide)

/-! ### C2 — baseline merge versus local edits -/

/-- Concrete state refuting C2: one locally staged value, and a freshly loaded
baseline carrying a different value for the same key. -/
def exStateC2 : TableState :=
  { editedData := [("A|row-0-Notes", "local")], hasUnsavedChanges := true }

/-- C2 counterexample: after the load effect runs with a non-empty baseline,
`get` returns the baseline value `"remote"`, not the locally staged
`"local"` — the buffer was replaced, not merged. -/
theorem C2_counterexample :
    getEditedValue (applyLoadedWritebackData [("A|row-0-Notes", "remote")] exStateC2)
        [{ columnName := "Notes" }] "A|row-0" "Notes" = "remote" ∧
    getEditedValue (applyLoadedWritebackData [("A|row-0-Notes", "remote")] exStateC2)
        [{ columnName := "Notes" }] "A|row-0" "Notes" ≠ "local" := by
  refine ⟨by decide, by decide⟩

/-- C2 amended: the load effect replaces the edit buffer wholesale whenever
the freshly loaded baseline is non-empty (baseline values win and locally
staged keys absent from the baseline are dropped); locally staged values
survive only when the loaded baseline is empty. -/
theorem C2_amended_baseline_replaces (loaded : List (String × String)) (st : TableState) :
    (loaded ≠ [] → (applyLoadedWritebackData loaded st).editedData = loaded) ∧
    (loaded = [] → applyLoadedWritebackData loaded st = st) := by
  constructor
  · intro h
    unfold applyLoadedWritebackData
    rw [if_neg (by simpa [List.isEmpty_iff] using h)]
  · intro h
    unfold applyLoadedWritebackData
    rw [if_pos (by simpa [List.isEmpty_iff] using h)]

/-- C2 amended witness: the concrete counterexample state, through the amended
statement. -/
theorem C2_amended_baseline_replaces_witness :
    (applyLoadedWritebackData [("A|row-0-Notes", "remote")] exStateC2).editedData =
      [("A|row-0-Notes", "remote")] :=
  (C2_amended_baseline_replaces [("A|row-0-Notes", "remote")] exStateC2).1 (by decide)

/-! ### C9 / C1 — buffer clearing and transport failure -/

/-- The gates of `saveAllChanges` up to the `saveWritebackData` call: dirty
non-empty buffer, no validation errors, confirmation passed.  Under them the
transition is determined by the `saveWritebackData` outcome alone. -/
theorem saveAllChanges_gates (layout : Layout) (ctx : SaveContext)
    (transport : Except String Unit) (uc : Bool) (st : TableState)
    (hd : st.hasUnsavedChanges = true)
    (hne : st.editedData ≠ [])
    (hv : collectValidationErrors st.editedData ((layout.writebackColumns).getD []) = [])
    (hc : layout.confirmBeforeSave = false ∨ uc = true) :
    saveAllChanges layout ctx transport uc st =
      match saveWritebackData transport ctx st.editedData layout with
      | .ok result =>
        ({ editedData := []
           hasUnsavedChanges := false
           saveStatus := some {
             success := true
             message := result.message
             fileName := result.fileName
             changeCount := result.changeCount
             timestamp := result.timestamp } }, some (.ok result))
      | .error e =>
        ({ st with saveStatus := some {
            success := false, message := e, timestamp := some ctx.timestamp } },
         some (.error e)) := by
  unfold saveAllChanges
  rw [if_neg, if_neg, if_neg]
  · rcases hc with hc | hc <;> simp [hc]
  · rw [hv]
    simp
  · simp [hd, List.isEmpty_iff, hne]

/-- C9: whenever `saveWritebackData` resolves (does not throw), `saveAllChanges`
clears the whole edit buffer and stores a success status — regardless of the
`success` flag inside the resolved result. -/
theorem C9_clear_on_resolve (layout : Layout) (ctx : SaveContext)
    (transport : Except String Unit) (uc : Bool) (st : TableState) (r : SaveResult)
    (hd : st.hasUnsavedChanges = true)
    (hne : st.editedData ≠ [])
    (hv : collectValidationErrors st.editedData ((layout.writebackColumns).getD []) = [])
    (hc : layout.confirmBeforeSave = false ∨ uc = true)
    (hr : saveWritebackData transport ctx st.editedData layout = .ok r) :
    (saveAllChanges layout ctx transport uc st).1.editedData = [] ∧
    (saveAllChanges layout ctx transport uc st).1.hasUnsavedChanges = false ∧
    (saveAllChanges layout ctx transport uc st).2 = some (.ok r) ∧
    ∃ s, (saveAllChanges layout ctx transport uc st).1.saveStatus = some s ∧
      s.success = true := by
  rw [saveAllChanges_gates layout ctx transport uc st hd hne hv hc, hr]
  exact ⟨rfl, rfl, rfl, _, rfl, rfl⟩

/-- C9 witness: the pending edit's row key resolves to no source row, so zero
records are generated and the collaborator *resolves* with `success := false`
(`"No changes to save"`); the buffer is nevertheless cleared and a success
status reported. -/
def exLayoutC9 : Layout :=
  { dimensions := ["ID"], dataRows := [[cellOf "X"]], writebackEnabled := true
    writebackColumns := some [{ columnName := "Notes" }] }

def exStateC9 : TableState :=
  { editedData := [("A|row-0-Notes", "hi")], hasUnsavedChanges := true }

def exCtx : SaveContext :=
  { user := "alice", timestamp := "2024-01-01T00:00:00Z", appId := "app1"
    sessionId := "sess1", version := 1700000000 }

theorem C9_clear_on_resolve_witness :
    saveWritebackData (.ok ()) exCtx exStateC9.editedData exLayoutC9 =
      .ok { success := false, message := "No changes to save", rtype := some "warning" } ∧
    (saveAllChanges exLayoutC9 exCtx (.ok ()) true exStateC9).1.editedData = [] ∧
    ∃ s, (saveAllChanges exLayoutC9 exCtx (.ok ()) true exStateC9).1.saveStatus = some s ∧
      s.success = true := by
  have h := C9_clear_on_resolve exLayoutC9 exCtx (.ok ()) true exStateC9
    { success := false, message := "No changes to save", rtype := some "warning" }
    (by decide) (by decide) (by decide) (Or.inr rfl) (by decide)
  exact ⟨by decide, h.1, h.2.2.2⟩

/-- C1: under passing validation, when the transport call is actually reached
(the generated record batch is non-empty), a transport failure leaves the edit
buffer intact (same entries, still non-empty) with a failure status, while a
transport success clears the buffer and returns a `SaveSummary` carrying the
record count, the timestamp and the saving user. -/
theorem C1_save_clears_only_on_success (layout : Layout) (ctx : SaveContext) (uc : Bool)
    (st : TableState)
    (hd : st.hasUnsavedChanges = true)
    (hne : st.editedData ≠ [])
    (hv : collectValidationErrors st.editedData ((layout.writebackColumns).getD []) = [])
    (hc : layout.confirmBeforeSave = false ∨ uc = true)
    (hrec : convertToDbRecords st.editedData layout ctx ≠ []) :
    (∀ e : String,
      (saveAllChanges layout ctx (.error e) uc st).1.editedData = st.editedData ∧
      0 < (saveAllChanges layout ctx (.error e) uc st).1.editedData.length ∧
      (∃ s, (saveAllChanges layout ctx (.error e) uc st).1.saveStatus = some s ∧
        s.success = false)) ∧
    ((saveAllChanges layout ctx (.ok ()) uc st).1.editedData = [] ∧
     ∃ r, (saveAllChanges layout ctx (.ok ()) uc st).2 = some (.ok r) ∧
       r.success = true ∧
       r.changeCount = some (convertToDbRecords st.editedData layout ctx).length ∧
       r.timestamp = some ctx.timestamp ∧
       r.savedBy = some ctx.user) := by
  have hrecE : (convertToDbRecords st.editedData layout ctx).isEmpty = false := by
    simpa [List.isEmpty_iff] using hrec
  constructor
  · intro e
    have hs : saveWritebackData (.error e) ctx st.editedData layout =
        .error ("Failed to save to database: " ++ e) := by
      unfold saveWritebackData
      simp only [hrecE, Bool.false_eq_true, if_false]
    rw [saveAllChanges_gates layout ctx (.error e) uc st hd hne hv hc, hs]
    refine ⟨rfl, ?_, _, rfl, rfl⟩
    show 0 < st.editedData.length
    have : st.editedData.length ≠ 0 := by
      simpa [List.length_eq_zero] using hne
    omega
  · have hs : saveWritebackData (.ok ()) ctx st.editedData layout =
        .ok { success := true
              message := "Successfully saved " ++
                natToString (convertToDbRecords st.editedData layout ctx).length ++
                " records to database"
              fileName := none
              timestamp := some ctx.timestamp
              changeCount := some (convertToDbRecords st.editedData layout ctx).length
              savedBy := some ctx.user
              rtype := some "success" } := by
      unfold saveWritebackData
      simp only [hrecE, Bool.false_eq_true, if_false]
    rw [saveAllChanges_gates layout ctx (.ok ()) uc st hd hne hv hc, hs]
    exact ⟨rfl, _, rfl, rfl, rfl, rfl, rfl⟩

/-- C1 witness: one valid pending edit whose row key resolves, saved once with
a failing transport (buffer kept) and once with a succeeding one (buffer
cleared, summary returned). -/
def exLayoutC1 : Layout :=
  { dimensions := ["ID"], dataRows := [[cellOf "A"]], writebackEnabled := true
    writebackColumns := some [{ columnName := "Notes" }] }

def exStateC1 : TableState :=
  { editedData := [("A|row-0-Notes", "hi")], hasUnsavedChanges := true }

theorem C1_save_clears_only_on_success_witness :
    ((saveAllChanges exLayoutC1 exCtx (.error "network down") true exStateC1).1.editedData =
        exStateC1.editedData ∧
      0 < (saveAllChanges exLayoutC1 exCtx (.error "network down") true
        exStateC1).1.editedData.length) ∧
    (saveAllChanges exLayoutC1 exCtx (.ok ()) true exStateC1).1.editedData = [] := by
  have h := C1_save_clears_only_on_success exLayoutC1 exCtx true exStateC1
    (by decide) (by decide) (by decide) (Or.inr rfl) (by decide)
  exact ⟨⟨(h.1 "network down").1, (h.1 "network down").2.1⟩, h.2.1⟩

/-! ### C3 — validation blocking the save -/

theorem collectStep_append (cols : List WritebackColumnConfig) (acc : List String)
    (kv : String × String) : ∃ t, collectStep cols acc kv = acc ++ t := by
  unfold collectStep
  rcases hm : mapGetLast cols (extractFieldFromKey kv.1) with _ | cfg <;> simp only [hm]
  · exact ⟨[], by simp⟩
  · rcases hv : validateField kv.2 cfg with _ | msg <;> simp only [hv]
    · exact ⟨[], by simp⟩
    · exact ⟨[extractFieldFromKey kv.1 ++ ": " ++ msg], rfl⟩

theorem mem_foldl_collectStep (cols : List WritebackColumnConfig) :
    ∀ (edits : List (String × String)) (acc : List String) (x : String), x ∈ acc →
      x ∈ edits.foldl (collectStep cols) acc := by
  intro edits
  induction edits with
  | nil => intro acc x hx; simpa using hx
  | cons e rest ih =>
    intro acc x hx
    simp only [List.foldl_cons]
    apply ih
    obtain ⟨t, ht⟩ := collectStep_append cols acc e
    rw [ht]
    exact List.mem_append_left _ hx

/-- Every edit whose field resolves and fails validation contributes its
`"field: message"` entry to the aggregated list. -/
theorem mem_collectValidationErrors (edits : List (String × String))
    (cols : List WritebackColumnConfig) (e : String × String) (cfg : WritebackColumnConfig)
    (msg : String)
    (hmem : e ∈ edits)
    (hcfg : mapGetLast cols (extractFieldFromKey e.1) = some cfg)
    (hval : validateField e.2 cfg = .invalid msg) :
    (extractFieldFromKey e.1 ++ ": " ++ msg) ∈ collectValidationErrors edits cols := by
  unfold collectValidationErrors
  suffices h : ∀ (l : List (String × String)), e ∈ l → ∀ acc,
      (extractFieldFromKey e.1 ++ ": " ++ msg) ∈ l.foldl (collectStep cols) acc from
    h edits hmem []
  intro l
  induction l with
  | nil => intro hl; exact absurd hl (List.not_mem_nil e)
  | cons hd rest ih =>
    intro hl acc
    simp only [List.foldl_cons]
    rcases List.mem_cons.mp hl with he | hr
    · subst he
      apply mem_foldl_collectStep
      have hstep : collectStep cols acc e = acc ++ [extractFieldFromKey e.1 ++ ": " ++ msg] := by
        unfold collectStep
        simp only [hcfg, hval]
      rw [hstep]
      exact List.mem_append_right _ (List.mem_singleton.mpr rfl)
    · exact ih hr _

/-- C3 counterexample: a *required* writeback column whose configuration
carries no `validation` object.  Its staged value is empty, yet `validateField`
reports it valid, the save proceeds, a record reaches the Sink and the buffer
is cleared — the claim's universal refusal fails. -/
def exColC3 : WritebackColumnConfig := { columnName := "Notes", required := true }

def exLayoutC3 : Layout :=
  { dimensions := ["ID"], dataRows := [[cellOf "A"]], writebackEnabled := true
    writebackColumns := some [exColC3] }

def exStateC3 : TableState :=
  { editedData := [("A|row-0-Notes", "")], hasUnsavedChanges := true }

theorem C3_counterexample :
    exColC3.required = true ∧
    validateField "" exColC3 = .valid ∧
    (saveAllChanges exLayoutC3 exCtx (.ok ()) true exStateC3).1.editedData = [] ∧
    ∃ r, (saveAllChanges exLayoutC3 exCtx (.ok ()) true exStateC3).2 = some (.ok r) ∧
      r.success = true ∧ r.changeCount = some 1 := by
  refine ⟨rfl, rfl, by decide, ?_⟩
  refine ⟨{ success := true
            message := "Successfully saved 1 records to database"
            fileName := none
            timestamp := some exCtx.timestamp
            changeCount := some 1
            savedBy := some exCtx.user
            rtype := some "success" }, by decide, rfl, rfl⟩

/-- C3 amended: *provided the required field's configuration carries a
`validation` object and its name resolves from the edit key*, an empty staged
value makes `saveAllChanges` refuse the whole save: the status message
aggregates every violation, `saveWritebackData` is never called, and the edit
buffer is left exactly as it was. -/
theorem C3_amended_validation_blocks_save (layout : Layout) (ctx : SaveContext)
    (transport : Except String Unit) (uc : Bool) (st : TableState) (e : String × String)
    (cfg : WritebackColumnConfig) (rules : ValidationRules)
    (hd : st.hasUnsavedChanges = true)
    (hmem : e ∈ st.editedData)
    (hcfg : mapGetLast ((layout.writebackColumns).getD []) (extractFieldFromKey e.1) = some cfg)
    (hvr : cfg.validation = some rules)
    (hreq : cfg.required = true)
    (hempty : jsTrim e.2 = "") :
    collectValidationErrors st.editedData ((layout.writebackColumns).getD []) ≠ [] ∧
    saveAllChanges layout ctx transport uc st =
      ({ st with saveStatus := some {
          success := false
          message := "Validation errors: " ++ String.intercalate "; "
            (collectValidationErrors st.editedData ((layout.writebackColumns).getD []))
          timestamp := some ctx.timestamp } }, none) ∧
    (∀ e' : String × String, ∀ cfg' msg', e' ∈ st.editedData →
      mapGetLast ((layout.writebackColumns).getD []) (extractFieldFromKey e'.1) = some cfg' →
      validateField e'.2 cfg' = .invalid msg' →
      (extractFieldFromKey e'.1 ++ ": " ++ msg') ∈
        collectValidationErrors st.editedData ((layout.writebackColumns).getD [])) := by
  have hne : st.editedData ≠ [] := List.ne_nil_of_mem hmem
  have hval : validateField e.2 cfg = .invalid "This field is required" := by
    unfold validateField
    simp only [hvr]
    rw [if_pos ⟨hreq, Or.inr hempty⟩]
  have hmemErr := mem_collectValidationErrors st.editedData
    ((layout.writebackColumns).getD []) e cfg _ hmem hcfg hval
  have herrne : collectValidationErrors st.editedData ((layout.writebackColumns).getD []) ≠ [] :=
    List.ne_nil_of_mem hmemErr
  refine ⟨herrne, ?_, ?_⟩
  · unfold saveAllChanges
    rw [if_neg (by simp [hd, List.isEmpty_iff, hne]),
      if_pos (by simpa [List.isEmpty_iff] using herrne)]
  · intro e' cfg' msg' hm hc hv'
    exact mem_collectValidationErrors _ _ _ _ _ hm hc hv'

/-- C3 amended witness: the same empty required field, now with a `validation`
object present: the save is refused, the buffer untouched, the transport never
reached. -/
def exColC3V : WritebackColumnConfig :=
  { columnName := "Notes", required := true, validation := some {} }

def exLayoutC3V : Layout :=
  { dimensions := ["ID"], dataRows := [[cellOf "A"]], writebackEnabled := true
    writebackColumns := some [exColC3V] }

theorem C3_amended_validation_blocks_save_witness :
    collectValidationErrors exStateC3.editedData ((exLayoutC3V.writebackColumns).getD []) ≠ [] ∧
    (saveAllChanges exLayoutC3V exCtx (.ok ()) true exStateC3).1.editedData =
      exStateC3.editedData ∧
    (saveAllChanges exLayoutC3V exCtx (.ok ()) true exStateC3).2 = none := by
  have h := C3_amended_validation_blocks_save exLayoutC3V exCtx (.ok ()) true exStateC3
    ("A|row-0-Notes", "") exColC3V {} rfl (by decide) (by decide) rfl rfl (by decide)
  exact ⟨h.1, by rw [h.2.1], by rw [h.2.1]⟩

/-! ### C8 — conflict detection -/

theorem lookup_addToGroup_self (k : String) (u : PresenceUser) :
    ∀ gs : List (String × List PresenceUser),
      List.lookup k (addToGroup gs k u) = some ((List.lookup k gs).getD [] ++ [u]) := by
  intro gs
  induction gs with
  | nil => simp [addToGroup, List.lookup]
  | cons hd rest ih =>
    obtain ⟨k', us⟩ := hd
    by_cases hk : k' = k
    · subst hk
      simp [addToGroup, List.lookup]
    · have hb : (k == k') = false := beq_eq_false_iff_ne.mpr (fun h => hk h.symm)
      simp only [addToGroup, if_neg hk, List.lookup, hb]
      exact ih

theorem lookup_addToGroup_other (k k' : String) (u : PresenceUser) (hk : k' ≠ k) :
    ∀ gs : List (String × List PresenceUser),
      List.lookup k' (addToGroup gs k u) = List.lookup k' gs := by
  intro gs
  induction gs with
  | nil =>
    have hb : (k' == k) = false := beq_eq_false_iff_ne.mpr hk
    simp [addToGroup, List.lookup, hb]
  | cons hd rest ih =>
    obtain ⟨k'', us⟩ := hd
    by_cases hkk : k'' = k
    · subst hkk
      have hb : (k' == k'') = false := beq_eq_false_iff_ne.mpr hk
      simp only [addToGroup, if_pos rfl, List.lookup, hb]
    · simp only [addToGroup, if_neg hkk, List.lookup]
      by_cases h2 : k' = k''
      · have hb : (k' == k'') = true := beq_iff_eq.mpr h2
        simp only [hb]
      · have hb : (k' == k'') = false := beq_eq_false_iff_ne.mpr h2
        simp only [hb]
        exact ih

theorem keys_addToGroup (k : String) (u : PresenceUser) :
    ∀ gs : List (String × List PresenceUser),
      (addToGroup gs k u).map Prod.fst =
        if k ∈ gs.map Prod.fst then gs.map Prod.fst else gs.map Prod.fst ++ [k] := by
  intro gs
  induction gs with
  | nil => simp [addToGroup]
  | cons hd rest ih =>
    obtain ⟨k', us⟩ := hd
    by_cases hk : k' = k
    · subst hk
      simp [addToGroup]
    · simp only [addToGroup, if_neg hk, List.map_cons, ih]
      have : (k ∈ k' :: rest.map Prod.fst) ↔ (k ∈ rest.map Prod.fst) := by
        constructor
        · intro h
          rcases List.mem_cons.mp h with h | h
          · exact absurd h.symm hk
          · exact h
        · exact fun h => List.mem_cons_of_mem _ h
      by_cases hmem : k ∈ rest.map Prod.fst
      · rw [if_pos hmem, if_pos (this.mpr hmem)]
      · rw [if_neg hmem, if_neg (fun h => hmem (this.mp h))]
        simp

theorem nodup_keys_addToGroup (k : String) (u : PresenceUser)
    (gs : List (String × List PresenceUser)) (h : (gs.map Prod.fst).Nodup) :
    ((addToGroup gs k u).map Prod.fst).Nodup := by
  rw [keys_addToGroup]
  by_cases hmem : k ∈ gs.map Prod.fst
  · rwa [if_pos hmem]
  · rw [if_neg hmem, List.nodup_append]
    refine ⟨h, List.nodup_singleton k, ?_⟩
    intro a ha hb
    rw [List.mem_singleton] at hb
    subst hb
    exact hmem ha

theorem nodup_keys_foldl_presenceStep :
    ∀ (users : List PresenceUser) (gs : List (String × List PresenceUser)),
      (gs.map Prod.fst).Nodup → ((users.foldl presenceStep gs).map Prod.fst).Nodup := by
  intro users
  induction users with
  | nil => intro gs h; simpa using h
  | cons u rest ih =>
    intro gs h
    simp only [List.foldl_cons]
    apply ih
    unfold presenceStep
    by_cases hs : u.status = "editing"
    · rw [if_pos hs]
      cases editingRowTruthy u with
      | none => exact h
      | some k => exact nodup_keys_addToGroup k u gs h
    · rwa [if_neg hs]

theorem nodup_keys_buildEditingMap (users : List PresenceUser) :
    ((buildEditingMap users).map Prod.fst).Nodup :=
  nodup_keys_foldl_presenceStep users [] (by simp)

theorem lookup_foldl_presenceStep (k : String) :
    ∀ (users : List PresenceUser) (gs : List (String × List PresenceUser)),
      List.lookup k (users.foldl presenceStep gs) =
        match List.lookup k gs with
        | some g => some (g ++ users.filter (isEditingRow k))
        | none =>
          if users.filter (isEditingRow k) = [] then none
          else some (users.filter (isEditingRow k)) := by
  intro users
  induction users with
  | nil =>
    intro gs
    rcases hg : List.lookup k gs with _ | g <;> simp [hg]
  | cons u rest ih =>
    intro gs
    simp only [List.foldl_cons]
    by_cases hu : isEditingRow k u = true
    · have hs : u.status = "editing" := by
        have := hu
        unfold isEditingRow at this
        exact of_decide_eq_true (Bool.and_elim_left this)
      have ht : editingRowTruthy u = some k := by
        have := hu
        unfold isEditingRow at this
        exact of_decide_eq_true (Bool.and_elim_right this)
      have hstep : presenceStep gs u = addToGroup gs k u := by
        unfold presenceStep
        rw [if_pos hs, ht]
      rw [hstep, ih (addToGroup gs k u), lookup_addToGroup_self]
      have hfil : (u :: rest).filter (isEditingRow k) = u :: rest.filter (isEditingRow k) := by
        simp [List.filter_cons, hu]
      rw [hfil]
      cases List.lookup k gs with
      | none => simp
      | some g => simp
    · have hu' : isEditingRow k u = false := by
        simpa using hu
      have hstep : List.lookup k (presenceStep gs u) = List.lookup k gs := by
        unfold presenceStep
        by_cases hs : u.status = "editing"
        · rw [if_pos hs]
          cases ht : editingRowTruthy u with
          | none => rfl
          | some k' =>
            have hkk : k' ≠ k := by
              intro hkk
              subst hkk
              have : isEditingRow k' u = true := by
                unfold isEditingRow
                rw [ht]
                simp [hs]
              rw [this] at hu'
              cases hu'
            rw [lookup_addToGroup_other k' k u (fun h => hkk h.symm) gs]
        · rw [if_neg hs]
      have hfil : (u :: rest).filter (isEditingRow k) = rest.filter (isEditingRow k) := by
        simp [List.filter_cons, hu']
      rw [ih (presenceStep gs u), hstep, hfil]

theorem lookup_buildEditingMap (users : List PresenceUser) (k : String)
    (hne : users.filter (isEditingRow k) ≠ []) :
    List.lookup k (buildEditingMap users) = some (users.filter (isEditingRow k)) := by
  unfold buildEditingMap
  rw [lookup_foldl_presenceStep k users []]
  simp only [List.lookup_nil]
  rw [if_neg hne]

theorem lookup_eq_none_of_not_mem_keys {k : String} :
    ∀ {l : List (String × List PresenceUser)}, k ∉ l.map Prod.fst → List.lookup k l = none := by
  intro l
  induction l with
  | nil => intro _; rfl
  | cons hd rest ih =>
    intro h
    obtain ⟨k', g⟩ := hd
    have h1 : k ≠ k' := fun he => h (by simp [he])
    have hb : (k == k') = false := beq_eq_false_iff_ne.mpr h1
    simp only [List.lookup, hb]
    exact ih (fun hm => h (by simp [hm]))

theorem mkConflictQ_pos {g : String × List PresenceUser} (h : 1 < g.2.length) :
    mkConflictQ g = some (mkConflict g.1 g.2) := by
  unfold mkConflictQ
  rw [if_pos h]

theorem mkConflictQ_neg {g : String × List PresenceUser} (h : ¬ 1 < g.2.length) :
    mkConflictQ g = none := by
  unfold mkConflictQ
  rw [if_neg h]

theorem filter_rowId_filterMap_of_not_mem (k : String) :
    ∀ (l : List (String × List PresenceUser)), k ∉ l.map Prod.fst →
      (l.filterMap mkConflictQ).filter (fun c => c.rowId == k) = [] := by
  intro l
  induction l with
  | nil => intro _; rfl
  | cons hd rest ih =>
    intro h
    obtain ⟨k', g⟩ := hd
    have h1 : k ≠ k' := fun he => h (by simp [he])
    have h2 : k ∉ rest.map Prod.fst := fun hm => h (by simp [hm])
    by_cases hlen : 1 < g.length
    · have hmk : mkConflictQ (k', g) = some (mkConflict k' g) := mkConflictQ_pos hlen
      have hb : ((mkConflict k' g).rowId == k) = false :=
        beq_eq_false_iff_ne.mpr (fun he => h1 he.symm)
      simp only [List.filterMap_cons, hmk, List.filter_cons, hb]
      exact ih h2
    · have hmk : mkConflictQ (k', g) = none := mkConflictQ_neg hlen
      simp only [List.filterMap_cons, hmk]
      exact ih h2

theorem filter_rowId_filterMap (k : String) :
    ∀ (l : List (String × List PresenceUser)), (l.map Prod.fst).Nodup →
      (l.filterMap mkConflictQ).filter (fun c => c.rowId == k) =
        match List.lookup k l with
        | some g => if 1 < g.length then [mkConflict k g] else []
        | none => [] := by
  intro l
  induction l with
  | nil => intro _; rfl
  | cons hd rest ih =>
    intro hn
    obtain ⟨k', g⟩ := hd
    have hn' : (k' :: rest.map Prod.fst).Nodup := by simpa using hn
    have hn1 : k' ∉ rest.map Prod.fst := (List.nodup_cons.mp hn').1
    have hn2 : (rest.map Prod.fst).Nodup := (List.nodup_cons.mp hn').2
    by_cases hk : k = k'
    · subst hk
      have hbk : (k == k) = true := beq_self_eq_true k
      by_cases hlen : 1 < g.length
      · have hmk : mkConflictQ (k, g) = some (mkConflict k g) := mkConflictQ_pos hlen
        have hb : ((mkConflict k g).rowId == k) = true := beq_self_eq_true k
        simp only [List.filterMap_cons, hmk, List.filter_cons, hb, List.lookup, hbk,
          filter_rowId_filterMap_of_not_mem k rest hn1, if_pos hlen]
        simp
      · have hmk : mkConflictQ (k, g) = none := mkConflictQ_neg hlen
        simp only [List.filterMap_cons, hmk, List.lookup, hbk,
          filter_rowId_filterMap_of_not_mem k rest hn1, if_neg hlen]
    · have hbk : (k == k') = false := beq_eq_false_iff_ne.mpr hk
      by_cases hlen : 1 < g.length
      · have hmk : mkConflictQ (k', g) = some (mkConflict k' g) := mkConflictQ_pos hlen
        have hb : ((mkConflict k' g).rowId == k) = false :=
          beq_eq_false_iff_ne.mpr (fun he => hk he.symm)
        simp only [List.filterMap_cons, hmk, List.filter_cons, hb, List.lookup, hbk]
        exact ih hn2
      · have hmk : mkConflictQ (k', g) = none := mkConflictQ_neg hlen
        simp only [List.filterMap_cons, hmk, List.lookup, hbk]
        exact ih hn2

theorem mem_dedupFirst (x : String) :
    ∀ l : List String, x ∈ dedupFirst l ↔ x ∈ l := by
  have main : ∀ (l : List String) (acc : List String),
      x ∈ l.foldl (fun acc y => if acc.contains y then acc else acc ++ [y]) acc ↔
        x ∈ acc ∨ x ∈ l := by
    intro l
    induction l with
    | nil => intro acc; simp
    | cons y rest ih =>
      intro acc
      simp only [List.foldl_cons]
      by_cases hc : acc.contains y = true
      · rw [if_pos hc]
        rw [ih]
        have hy : y ∈ acc := by simpa using hc
        constructor
        · rintro (h | h)
          · exact Or.inl h
          · exact Or.inr (List.mem_cons_of_mem _ h)
        · rintro (h | h)
          · exact Or.inl h
          · rcases List.mem_cons.mp h with h | h
            · exact Or.inl (h ▸ hy)
            · exact Or.inr h
      · rw [if_neg hc, ih]
        constructor
        · rintro (h | h)
          · rcases List.mem_append.mp h with h | h
            · exact Or.inl h
            · have hxy : x = y := by simpa using h
              exact Or.inr (by rw [hxy]; exact List.mem_cons_self y rest)
          · exact Or.inr (List.mem_cons_of_mem _ h)
        · rintro (h | h)
          · exact Or.inl (List.mem_append_left _ h)
          · rcases List.mem_cons.mp h with h | h
            · exact Or.inl (List.mem_append_right _ (by simp [h]))
            · exact Or.inr h
  intro l
  unfold dedupFirst
  rw [main l []]
  simp

theorem mem_foldr_editingFields (x : String) :
    ∀ l : List PresenceUser,
      x ∈ l.foldr (fun u acc => u.editingFields ++ acc) [] ↔ ∃ u ∈ l, x ∈ u.editingFields := by
  intro l
  induction l with
  | nil => simp
  | cons u rest ih =>
    simp only [List.foldr_cons, List.mem_append, ih]
    constructor
    · rintro (h | ⟨w, hw, hx⟩)
      · exact ⟨u, List.mem_cons_self u rest, h⟩
      · exact ⟨w, List.mem_cons_of_mem _ hw, hx⟩
    · rintro ⟨w, hw, hx⟩
      rcases List.mem_cons.mp hw with h | h
      · exact Or.inl (h ▸ hx)
      · exact Or.inr ⟨w, h, hx⟩

theorem one_lt_length_of_two_mem {l : List PresenceUser} {a b : PresenceUser}
    (ha : a ∈ l) (hb : b ∈ l) (hab : a ≠ b) : 1 < l.length := by
  match l with
  | [] => cases ha
  | [x] =>
    have h1 : a = x := by simpa using ha
    have h2 : b = x := by simpa using hb
    exact absurd (h1.trans h2.symm) hab
  | x :: y :: t => simp only [List.length_cons]; omega

theorem presenceStep_filter_editing :
    ∀ (users : List PresenceUser) (gs : List (String × List PresenceUser)),
      (users.filter fun u => u.status == "editing").foldl presenceStep gs =
        users.foldl presenceStep gs := by
  intro users
  induction users with
  | nil => intro gs; rfl
  | cons u rest ih =>
    intro gs
    by_cases hs : u.status = "editing"
    · rw [List.filter_cons, if_pos (by simpa using hs)]
      simp only [List.foldl_cons]
      exact ih _
    · rw [List.filter_cons, if_neg (by simpa using hs)]
      simp only [List.foldl_cons]
      have : presenceStep gs u = gs := by
        unfold presenceStep
        rw [if_neg hs]
      rw [this]
      exact ih gs

/-- C8: grouping is by `editingRow` over exactly the `editing`-status sessions;
a group containing two distinct user names yields exactly one conflict for that
row key, carrying every group member's name and the union of the group's
`editingFields`; sessions in any other status never contribute. -/
theorem C8_conflict_detection (users : List PresenceUser) (k : String)
    (h : ∃ u1 ∈ users.filter (isEditingRow k), ∃ u2 ∈ users.filter (isEditingRow k),
      u1.name ≠ u2.name) :
    (∃ c : Conflict,
      (detectConflicts users).filter (fun c' => c'.rowId == k) = [c] ∧
      c.users = (users.filter (isEditingRow k)).map PresenceUser.name ∧
      (∀ u ∈ users.filter (isEditingRow k), u.name ∈ c.users) ∧
      (∀ f, f ∈ c.fields ↔ ∃ u ∈ users.filter (isEditingRow k), f ∈ u.editingFields)) ∧
    detectConflicts users = detectConflicts (users.filter fun u => u.status == "editing") := by
  obtain ⟨u1, hu1, u2, hu2, hne⟩ := h
  have hlen : 1 < (users.filter (isEditingRow k)).length :=
    one_lt_length_of_two_mem hu1 hu2 (fun he => hne (congrArg PresenceUser.name he))
  have hgne : users.filter (isEditingRow k) ≠ [] := by
    intro hnil
    rw [hnil] at hlen
    simp at hlen
  constructor
  · refine ⟨mkConflict k (users.filter (isEditingRow k)), ?_, rfl, ?_, ?_⟩
    · unfold detectConflicts
      rw [filter_rowId_filterMap k (buildEditingMap users) (nodup_keys_buildEditingMap users),
        lookup_buildEditingMap users k hgne]
      simp only [if_pos hlen]
    · intro u hu
      exact List.mem_map_of_mem _ hu
    · intro f
      unfold mkConflict
      simp only []
      rw [mem_dedupFirst, mem_foldr_editingFields]
  · unfold detectConflicts buildEditingMap
    rw [presenceStep_filter_editing]

/-- C8 witness: Alice and Bob both editing row `"ACC1"`, Carol merely typing:
exactly one conflict, naming both editors, fields the union of theirs. -/
theorem C8_conflict_detection_witness :
    ∃ c : Conflict,
      (detectConflicts
            [⟨"Alice", "editing", some "ACC1", ["Notes"]⟩,
             ⟨"Carol", "typing", some "ACC1", ["Comments"]⟩,
             ⟨"Bob", "editing", some "ACC1", ["Status", "Notes"]⟩]).filter
          (fun c' => c'.rowId == "ACC1") = [c] ∧
      "Alice" ∈ c.users ∧ "Bob" ∈ c.users ∧ "Carol" ∉ c.users := by
  have h := C8_conflict_detection
    [⟨"Alice", "editing", some "ACC1", ["Notes"]⟩,
     ⟨"Carol", "typing", some "ACC1", ["Comments"]⟩,
     ⟨"Bob", "editing", some "ACC1", ["Status", "Notes"]⟩] "ACC1"
    (by decide)
  obtain ⟨⟨c, hc, hcu, _, _⟩, _⟩ := h
  refine ⟨c, hc, ?_, ?_, ?_⟩
  · rw [hcu]; decide
  · rw [hcu]; decide
  · rw [hcu]; decide

/-! ### C10 — presence tracks only the first key segment -/

/-- C10: a cell edit notifies presence with only the first `|`-segment of the
RowKey; focus-based detection likewise reports the focused row's *first* cell
text; consequently two sessions editing *distinct* rows that share the first
key value are grouped into one conflict on that shared segment. -/
theorem C10_first_segment_presence (st1 st2 : TableState)
    (rowId1 rowId2 field1 field2 v1 v2 : String) (u1 u2 : PresenceUser)
    (hrows : rowId1 ≠ rowId2)
    (hseg : (jsSplit rowId1 "|").headD "" = (jsSplit rowId2 "|").headD "")
    (hne : (jsSplit rowId1 "|").headD "" ≠ "")
    (hnames : u1.name ≠ u2.name) :
    (updateEditedData st1 rowId1 field1 v1).2.1 = (updateEditedData st2 rowId2 field2 v2).2.1 ∧
    (∀ ctxF : FocusContext, ctxF.inputFocused = true →
      (detectEditingActivity ctxF).2.1 = ctxF.rowFirstCellText) ∧
    detectConflicts
        [updateEditingStatus u1 (some ((updateEditedData st1 rowId1 field1 v1).2.1))
          (updateEditedData st1 rowId1 field1 v1).2.2,
         updateEditingStatus u2 (some ((updateEditedData st2 rowId2 field2 v2).2.1))
          (updateEditedData st2 rowId2 field2 v2).2.2] =
      [{ rowId := (jsSplit rowId1 "|").headD ""
         users := [u1.name, u2.name]
         fields := dedupFirst [field1, field2]
         severity := "warning" }] := by
  have h2seg : (jsSplit rowId2 "|").headD "" = (jsSplit rowId1 "|").headD "" := hseg.symm
  refine ⟨hseg, ?_, ?_⟩
  · intro ctxF hf
    simp [detectEditingActivity, hf]
  · simp only [updateEditedData, h2seg]
    generalize hKK : (jsSplit rowId1 "|").headD "" = K at hne ⊢
    simp [detectConflicts, buildEditingMap, presenceStep, updateEditingStatus,
      editingRowTruthy, addToGroup, mkConflictQ, mkConflict, hne, dedupFirst]

/-- C10 witness: `"ACC1|North|row-0"` and `"ACC1|South|row-7"` are different
rows, yet both sessions are grouped under `"ACC1"` in one conflict. -/
theorem C10_first_segment_presence_witness :
    detectConflicts
        [updateEditingStatus ⟨"Alice", "viewing", none, []⟩
          (some ((updateEditedData ⟨[], false, none⟩ "ACC1|North|row-0" "Notes" "x").2.1))
          (updateEditedData ⟨[], false, none⟩ "ACC1|North|row-0" "Notes" "x").2.2,
         updateEditingStatus ⟨"Bob", "viewing", none, []⟩
          (some ((updateEditedData ⟨[], false, none⟩ "ACC1|South|row-7" "Status" "y").2.1))
          (updateEditedData ⟨[], false, none⟩ "ACC1|South|row-7" "Status" "y").2.2] =
      [{ rowId := "ACC1"
         users := ["Alice", "Bob"]
         fields := ["Notes", "Status"]
         severity := "warning" }] := by
  have h := C10_first_segment_presence ⟨[], false, none⟩ ⟨[], false, none⟩
    "ACC1|North|row-0" "ACC1|South|row-7" "Notes" "Status" "x" "y"
    ⟨"Alice", "viewing", none, []⟩ ⟨"Bob", "viewing", none, []⟩
    (by decide) (by decide) (by decide) (by decide)
  rw [h.2.2]
  decide

/-! ### C4 — save-time row resolution -/

/-- Concrete data refuting C4: row key `"A|B|C|row-5"` over a single row
`["X","B","C"]`.  Two of the first three key segments match the row, so the
claimed `≥2-of-3` fallback would resolve it (and the CSV path's
`findMatchingRow` does) — but the database save path's `findRowByPrimaryKey`
has no such tier: the edits are dropped. -/
def exLayoutC4 : Layout :=
  { dimensions := ["ID"], dataRows := [[cellOf "X", cellOf "B", cellOf "C"]] }

theorem C4_counterexample :
    findRowByPrimaryKey [[cellOf "X", cellOf "B", cellOf "C"]] "A|B|C|row-5"
      (analyzeModelStructure exLayoutC4) = none ∧
    findMatchingRow "A|B|C|row-5" [[cellOf "X", cellOf "B", cellOf "C"]] =
      some ([cellOf "X", cellOf "B", cellOf "C"], 0) ∧
    convertToDbRecords [("A|B|C|row-5-Notes", "v")] exLayoutC4 exCtx = [] := by
  refine ⟨by decide, by decide, by decide⟩

theorem foldl_push_filterMap {α β : Type} (f : α → Option β) :
    ∀ (l : List α) (acc : List β),
      l.foldl
        (fun recs g =>
          match f g with
          | none => recs
          | some b => recs ++ [b]) acc =
        acc ++ l.filterMap f := by
  intro l
  induction l with
  | nil => intro acc; simp
  | cons x rest ih =>
    intro acc
    simp only [List.foldl_cons, List.filterMap_cons]
    rcases hf : f x with _ | b <;> simp only [hf]
    · exact ih acc
    · rw [ih (acc ++ [b])]
      simp

/-- `convertToDbRecords` is the filter-map of record construction over the
grouped edits: a group whose row resolves contributes exactly one record, an
unresolvable group is dropped, and no group affects any other. -/
theorem convertToDbRecords_eq_filterMap (editedData : List (String × String))
    (layout : Layout) (ctx : SaveContext) :
    convertToDbRecords editedData layout ctx =
      (groupEditsByPrimaryKey editedData (analyzeModelStructure layout)).filterMap
        (fun g =>
          (findRowByPrimaryKey layout.dataRows g.1 (analyzeModelStructure layout)).map
            (fun row => createDynamicDbRecord row (analyzeModelStructure layout) g.2 ctx)) := by
  unfold convertToDbRecords
  have h : ∀ (gs : List (String × List (String × String))) (acc : List DbRecord),
      gs.foldl
        (fun recs g =>
          match findRowByPrimaryKey layout.dataRows g.1 (analyzeModelStructure layout) with
          | none => recs
          | some row => recs ++ [createDynamicDbRecord row (analyzeModelStructure layout) g.2 ctx])
        acc =
      acc ++ gs.filterMap
        (fun g =>
          (findRowByPrimaryKey layout.dataRows g.1 (analyzeModelStructure layout)).map
            (fun row => createDynamicDbRecord row (analyzeModelStructure layout) g.2 ctx)) := by
    intro gs
    induction gs with
    | nil => intro acc; simp
    | cons g rest ih =>
      intro acc
      simp only [List.foldl_cons, List.filterMap_cons]
      rcases hf : findRowByPrimaryKey layout.dataRows g.1 (analyzeModelStructure layout)
        with _ | row <;> simp only [hf, Option.map_none, Option.map_some]
      · exact ih acc
      · rw [ih (acc ++ [createDynamicDbRecord row (analyzeModelStructure layout) g.2 ctx])]
        simp
    -- placeholder
  exact (h (groupEditsByPrimaryKey editedData (analyzeModelStructure layout)) []).trans
    (by simp)

/-- C4 amended: the database save path's resolution parses the trailing
`row-<N>`; a valid `N` yields `rows[N]` when the *first* key segment matches
that row's first cell text, and yields `rows[N]` *unverified* when no check is
possible (no key segments, or the first cell text missing/empty); when method 1
yields nothing, the two first-segment scans (first column, then configured
primary-key column) decide, in order — there is no two-of-three-segments tier
here.  Unresolvable row keys are dropped while every other group still
produces its record. -/
theorem C4_amended_row_resolution (baseRows : List Row) (key : String) (ms : ModelStructure) :
    (∀ n row c t,
      scanRowNum ((jsSplit key "|").getLastD "").data = some n →
      baseRows.get? n = some row →
      row.head? = some c →
      c.qText = some t →
      t ≠ "" →
      ((jsSplit key "|").dropLast).headD "" = t →
      findRowByPrimaryKey baseRows key ms = some row) ∧
    (∀ n row,
      scanRowNum ((jsSplit key "|").getLastD "").data = some n →
      baseRows.get? n = some row →
      ((jsSplit key "|").dropLast = [] ∨ row.head? = none ∨
        (∃ c, row.head? = some c ∧ (c.qText = none ∨ c.qText = some ""))) →
      findRowByPrimaryKey baseRows key ms = some row) ∧
    (findRowMethod1 baseRows ((jsSplit key "|").dropLast) ((jsSplit key "|").getLastD "") =
        none →
      findRowByPrimaryKey baseRows key ms =
        (findRowMethod2 baseRows ((jsSplit key "|").dropLast)).orElse
          (fun _ => findRowMethod3 baseRows ((jsSplit key "|").dropLast) key ms)) ∧
    (∀ (editedData : List (String × String)) (layout : Layout) (ctx : SaveContext),
      convertToDbRecords editedData layout ctx =
        (groupEditsByPrimaryKey editedData (analyzeModelStructure layout)).filterMap
          (fun g =>
            (findRowByPrimaryKey layout.dataRows g.1 (analyzeModelStructure layout)).map
              (fun row =>
                createDynamicDbRecord row (analyzeModelStructure layout) g.2 ctx))) := by
  have hm1eq : ∀ res : Option Row,
      findRowMethod1 baseRows ((jsSplit key "|").dropLast) ((jsSplit key "|").getLastD "") =
        res →
      findRowByPrimaryKey baseRows key ms =
        res.orElse fun _ =>
          (findRowMethod2 baseRows ((jsSplit key "|").dropLast)).orElse
            fun _ => findRowMethod3 baseRows ((jsSplit key "|").dropLast) key ms := by
    intro res hres
    unfold findRowByPrimaryKey
    simp only [hres]
  refine ⟨?_, ?_, ?_, ?_⟩
  · intro n row c t hscan hrow hc hqt ht hseg
    have hkp : (jsSplit key "|").dropLast ≠ [] := by
      intro hnil
      rw [hnil] at hseg
      have het : "" = t := hseg
      exact ht het.symm
    have hm1 : findRowMethod1 baseRows ((jsSplit key "|").dropLast)
        ((jsSplit key "|").getLastD "") = some row := by
      unfold findRowMethod1
      simp only [hscan, hrow, hc, hqt]
      rw [if_pos ⟨ht, hkp⟩, if_pos hseg]
    rw [hm1eq (some row) hm1]
    rfl
  · intro n row hscan hrow hbad
    have hm1 : findRowMethod1 baseRows ((jsSplit key "|").dropLast)
        ((jsSplit key "|").getLastD "") = some row := by
      unfold findRowMethod1
      simp only [hscan, hrow]
      rcases hbad with hkp | hhd | ⟨c, hc, hq⟩
      · rcases hhd : row.head? with _ | c
        · simp [hhd]
        · rcases hq : c.qText with _ | t
          · simp [hhd, hq]
          · simp [hhd, hq, hkp]
      · simp [hhd]
      · rcases hq with hq | hq
        · simp [hc, hq]
        · simp [hc, hq]
    rw [hm1eq (some row) hm1]
    rfl
  · intro hm1
    rw [hm1eq none hm1]
    rfl
  · exact fun e l c => convertToDbRecords_eq_filterMap e l c

/-- C4 amended witness: `"A|row-0"` over the single row `["A"]` resolves by
index with a matching first segment. -/
theorem C4_amended_row_resolution_witness :
    findRowByPrimaryKey [[cellOf "A"]] "A|row-0" (analyzeModelStructure exLayoutC4) =
      some [cellOf "A"] := by
  have h := C4_amended_row_resolution [[cellOf "A"]] "A|row-0" (analyzeModelStructure exLayoutC4)
  exact h.1 0 [cellOf "A"] (cellOf "A") "A" (by decide) (by decide) (by decide) (by decide)
    (by decide) (by decide)

end Writeback
